import Mathlib

/-!
Verification of the dataset filter & aggregation engine of the HR attrition
dashboard (`src/app.py`), shallowly embedded in Lean.

The dashboard's reusable logic is embedded as pure functions over an explicit
`DataFrame` type:

* sidebar selection defaults (app.py lines 28-38) as `defaultSel`;
* the age-bounds computation `int(df['Age'].min()), int(df['Age'].max())`
  (line 40) as `ageBounds`, which fails (Python `KeyError` / `ValueError`)
  when the `Age` column is absent, non-numeric, or has no value;
* the filter pipeline (lines 44-49) as `applyFilters`, built from
  `catStage` (the `if selected: df[df[c].isin(selected)]` pattern) and
  `ageStage` (the inclusive range comparison);
* the attrition crosstab `pd.crosstab(..., normalize='index') * 100`
  (line 122) as `crossTabRate`;
* the Pearson correlation matrix (lines 111-116) as `corrMatrix`;
* the CSV export `to_csv(index=False)` (line 189) as `toCsv`, together with
  a character-level CSV reader `parseCsv` standing for `pd.read_csv`
  (lines 16-18) at the level of textual fields.

Fallible operations (column lookups that raise `KeyError` in pandas) return
`Option`; a `none` cell models a null/NaN entry.
-/

namespace EAApp

/-- A cell value: the dashboard's dataframes hold strings and integers. -/
inductive Value where
  | str : String → Value
  | int : Int → Value
deriving DecidableEq

/-- A row: one optional cell per column (`none` models a null/NaN cell). -/
abbrev Row := List (Option Value)

/-- A dataframe: named columns plus rows aligned positionally with them. -/
structure DataFrame where
  cols : List String
  rows : List Row
deriving DecidableEq

/-- Index of the first column with the given name (pandas column lookup);
`none` models the `KeyError` on a missing column. -/
def idxOf : List String → String → Option Nat
  | [], _ => none
  | s :: rest, c => if s = c then some 0 else (idxOf rest c).map (· + 1)

/-- `df[c]` as the list of the column's cells; `none` when the column is
absent. -/
def getCol (df : DataFrame) (c : String) : Option (List (Option Value)) :=
  (idxOf df.cols c).map fun i => df.rows.map fun r => r.getD i none

/-- The cell of row `r` in column `c`, given the frame's column list. -/
def cellAt (cols : List String) (c : String) (r : Row) : Option Value :=
  match idxOf cols c with
  | some i => r.getD i none
  | none => none

/-- First-occurrence deduplication with an accumulator of already seen
values (`Series.unique`). -/
def uniqueAux {α : Type} [DecidableEq α] : List α → List α → List α
  | [], _ => []
  | v :: vs, seen =>
    if v ∈ seen then uniqueAux vs seen else v :: uniqueAux vs (v :: seen)

/-- First-occurrence deduplication (pandas `Series.unique`). -/
def uniqueFirst {α : Type} [DecidableEq α] (l : List α) : List α :=
  uniqueAux l []

/-- app.py lines 28-38: the widget's default selection for a categorical
column — `df[c].dropna().unique()` when the column is present, and the
empty list when it is absent. -/
def defaultSel (df : DataFrame) (c : String) : List Value :=
  match getCol df c with
  | none => []
  | some cells => uniqueFirst cells.reduceOption

/-- Reading a cell of a numeric column: a null stays null, an integer is
kept, and a string cell makes the numeric read fail. -/
def cellInt : Option Value → Option (Option Int)
  | none => some none
  | some (Value.int n) => some (some n)
  | some (Value.str _) => none

/-- app.py line 40: `int(df['Age'].min()), int(df['Age'].max())` — fails
(`KeyError` / `ValueError`) when the Age column is absent, contains a
non-numeric value, or has no non-null value at all. -/
def ageBounds (df : DataFrame) : Option (Int × Int) :=
  match getCol df "Age" with
  | none => none
  | some cells =>
    match cells.mapM cellInt with
    | none => none
    | some opts =>
      match opts.reduceOption with
      | [] => none
      | x :: xs => some (xs.foldl min x, xs.foldl max x)

/-- Membership test of a cell in an inclusion list (`Series.isin`): a null
cell is never a member. -/
def catPred (sel : List Value) : Option Value → Bool
  | some v => sel.any fun s => decide (s = v)
  | none => false

/-- The inclusive age-range predicate on a cell
(`(age >= lo) & (age <= hi)`): null or non-numeric cells do not pass. -/
def agePred (lo hi : Int) : Option Value → Bool
  | some (Value.int n) => decide (lo ≤ n) && decide (n ≤ hi)
  | _ => false

/-- `df[df[c].isin(sel)]`: fails when column `c` is absent, otherwise keeps
the rows whose cell in `c` is a member of `sel`. -/
def isinFilter (df : DataFrame) (c : String) (sel : List Value) :
    Option DataFrame :=
  match idxOf df.cols c with
  | none => none
  | some i =>
    some ⟨df.cols, df.rows.filter fun r => catPred sel (r.getD i none)⟩

/-- app.py lines 45-48: `if selected: df = df[df[c].isin(selected)]` — an
empty selection list is falsy in Python, so the predicate is skipped
entirely and the frame passes through unchanged. -/
def catStage (df : DataFrame) (c : String) (sel : List Value) :
    Option DataFrame :=
  match sel with
  | [] => some df
  | _ => isinFilter df c sel

/-- app.py line 49: the inclusive age-range filter
`df[(df['Age'] >= lo) & (df['Age'] <= hi)]`; fails when `Age` is absent. -/
def ageStage (df : DataFrame) (lo hi : Int) : Option DataFrame :=
  match idxOf df.cols "Age" with
  | none => none
  | some i =>
    some ⟨df.cols, df.rows.filter fun r => agePred lo hi (r.getD i none)⟩

/-- app.py lines 40-49: the whole filter pipeline. Line 40 computes the age
slider bounds from the unfiltered frame (raising if `Age` is unusable),
then the Department, Gender and Age predicates are applied in order. -/
def applyFilters (df : DataFrame) (selDept selGender : List Value)
    (lo hi : Int) : Option DataFrame :=
  match ageBounds df with
  | none => none
  | some _ =>
    match catStage df "Department" selDept with
    | none => none
    | some d1 =>
      match catStage d1 "Gender" selGender with
      | none => none
      | some d2 => ageStage d2 lo hi

/-- The paired non-null cells of two columns; `pd.crosstab` drops every row
in which either series is null. Fails when either column is absent. -/
def pairedCol (df : DataFrame) (c1 c2 : String) :
    Option (List (Value × Value)) :=
  match idxOf df.cols c1, idxOf df.cols c2 with
  | some i, some j =>
    some (df.rows.filterMap fun r =>
      match r.getD i none, r.getD j none with
      | some a, some b => some (a, b)
      | _, _ => none)
  | _, _ => none

/-- app.py line 122: `pd.crosstab(cat, attr, normalize='index') * 100` on
the paired non-null values — for each category occurring in the data, the
percentage of each attrition value among that category's rows. Percentages
are exact rationals here; the dashboard renders them as floats. -/
def crossTabRate (pairs : List (Value × Value)) :
    List (Value × List (Value × ℚ)) :=
  let avals := uniqueFirst (pairs.map Prod.snd)
  (uniqueFirst (pairs.map Prod.fst)).map fun c =>
    let sub := pairs.filter fun p => decide (p.1 = c)
    (c, avals.map fun a =>
      (a, 100 * ((sub.filter fun p => decide (p.2 = a)).length : ℚ) /
        (sub.length : ℚ)))

/-- The list of rational pairs of two columns' cells where both cells are
integers (the observations entering a pairwise Pearson correlation). -/
def intCellsPair (df : DataFrame) (c1 c2 : String) : List (ℚ × ℚ) :=
  df.rows.filterMap fun r =>
    match cellAt df.cols c1 r, cellAt df.cols c2 r with
    | some (Value.int m), some (Value.int n) => some ((m : ℚ), (n : ℚ))
    | _, _ => none

/-- Mean of a list of rationals (0 on the empty list). -/
def qmean (xs : List ℚ) : ℚ := xs.sum / (xs.length : ℚ)

/-- Unnormalized covariance of paired observations: the sum of products of
deviations from the two means. The `1/(n-1)` factors cancel in Pearson
correlation, so they are left out. -/
def qcov (ps : List (ℚ × ℚ)) : ℚ :=
  (ps.map fun p =>
    (p.1 - qmean (ps.map Prod.fst)) * (p.2 - qmean (ps.map Prod.snd))).sum

/-- Unnormalized variance: the sum of squared deviations from the mean. -/
def qvar (xs : List ℚ) : ℚ :=
  (xs.map fun x => (x - qmean xs) * (x - qmean xs)).sum

/-- Pearson correlation of paired observations,
`cov / sqrt(var_x * var_y)` (real-valued because of the square root). -/
noncomputable def pearson (ps : List (ℚ × ℚ)) : ℝ :=
  ((qcov ps : ℚ) : ℝ) /
    Real.sqrt (((qvar (ps.map Prod.fst) * qvar (ps.map Prod.snd) : ℚ) : ℝ))

/-- A column counts as numeric when no cell of it holds a string
(`select_dtypes(include='number')`; an all-null column loads as float). -/
def colIsNumeric (cells : List (Option Value)) : Bool :=
  cells.all fun cell =>
    match cell with
    | some (Value.str _) => false
    | _ => true

/-- app.py line 111: the numeric columns of the frame. -/
def numericCols (df : DataFrame) : List String :=
  df.cols.filter fun c =>
    match getCol df c with
    | some cells => colIsNumeric cells
    | none => false

/-- One entry of the correlation heatmap: the Pearson correlation of two
columns over the rows where both are non-null numbers. -/
noncomputable def corrEntry (df : DataFrame) (c1 c2 : String) : ℝ :=
  pearson (intCellsPair df c1 c2)

/-- app.py lines 111-116: `filtered_df[numeric_cols].corr()`, computed only
when more than one numeric column is present (`if len(numeric_cols) > 1:`);
otherwise no matrix is produced. -/
noncomputable def corrMatrix (df : DataFrame) : Option (List (List ℝ)) :=
  let nc := numericCols df
  if 1 < nc.length then
    some (nc.map fun c1 => nc.map fun c2 => corrEntry df c1 c2)
  else
    none

/-- Rendering of a cell for the CSV export: nulls export as the empty
field, integers in decimal, strings verbatim (before escaping). -/
def cellStr : Option Value → String
  | none => ""
  | some (Value.int n) => toString n
  | some (Value.str s) => s

/-- A field must be quoted when it contains the delimiter, the quote
character, or a line break (`csv.QUOTE_MINIMAL`). -/
def needsQuote (s : String) : Bool :=
  s.toList.any fun ch => ch == ',' || ch == '"' || ch == '\n'

/-- Escaping of the characters of a quoted field: embedded quote
characters are doubled. -/
def escChars : List Char → List Char
  | [] => []
  | ch :: rest =>
    if ch = '"' then '"' :: '"' :: escChars rest else ch :: escChars rest

/-- One serialized field: quoted with doubled inner quotes when it needs
quoting, verbatim otherwise. -/
def encodeField (s : String) : List Char :=
  if needsQuote s then '"' :: (escChars s.toList ++ ['"']) else s.toList

/-- One serialized record: its fields joined by the delimiter. -/
def encRecord : List String → List Char
  | [] => []
  | [f] => encodeField f
  | f :: g :: rest => encodeField f ++ ',' :: encRecord (g :: rest)

/-- Serialized records, each terminated by a newline
(`to_csv` ends every record, the last included, with one). -/
def renderCsv : List (List String) → List Char
  | [] => []
  | rec :: rest => encRecord rec ++ '\n' :: renderCsv rest

/-- app.py line 189: `filtered_df.to_csv(index=False)` — the header record
holding the column names in order, then one record per row. -/
def toCsv (df : DataFrame) : String :=
  String.mk (renderCsv (df.cols :: df.rows.map fun r => r.map cellStr))

/-- Reader of a quoted field's body (after the opening quote): a doubled
quote is one literal quote, a single quote closes the field; returns the
field's characters and the unconsumed input, `none` on an unterminated
field. -/
def parseQ : List Char → Option (List Char × List Char)
  | [] => none
  | [ch] => if ch = '"' then some ([], []) else none
  | ch :: ch2 :: rest =>
    if ch = '"' then
      if ch2 = '"' then
        (parseQ rest).map fun p => ('"' :: p.1, p.2)
      else
        some ([], ch2 :: rest)
    else
      (parseQ (ch2 :: rest)).map fun p => (ch :: p.1, p.2)

/-- Reader of an unquoted field: everything up to the next delimiter or
line break. -/
def parseU : List Char → List Char × List Char
  | [] => ([], [])
  | ch :: rest =>
    if ch = ',' ∨ ch = '\n' then ([], ch :: rest)
    else
      let p := parseU rest
      (ch :: p.1, p.2)

/-- Reader of one field: quoted when it starts with the quote character,
unquoted otherwise. -/
def parseField : List Char → Option (List Char × List Char)
  | [] => some ([], [])
  | ch :: rest =>
    if ch = '"' then parseQ rest else some (parseU (ch :: rest))

/-- Reader of one record: fields separated by the delimiter, ended by a
line break or the end of input. The fuel bounds the number of fields. -/
def parseRecFuel : Nat → List Char → Option (List String × List Char)
  | 0, _ => none
  | fuel + 1, s =>
    match parseField s with
    | none => none
    | some (f, rest) =>
      match rest with
      | [] => some ([String.mk f], [])
      | ch :: r =>
        if ch = '\n' then some ([String.mk f], r)
        else if ch = ',' then
          match parseRecFuel fuel r with
          | none => none
          | some (fs, r2) => some (String.mk f :: fs, r2)
        else none

/-- Reader of a sequence of records up to the end of input. The fuel
bounds the number of records. -/
def parseCsvFuel : Nat → List Char → Option (List (List String))
  | 0, _ => none
  | _ + 1, [] => some []
  | fuel + 1, ch :: s =>
    match parseRecFuel (s.length + 2) (ch :: s) with
    | none => none
    | some (fs, rest) =>
      match parseCsvFuel fuel rest with
      | none => none
      | some recs => some (fs :: recs)

/-- The textual content read back from a delimited-text buffer
(`pd.read_csv` at the level of textual fields): the list of records, the
header first. -/
def parseCsv (s : String) : Option (List (List String)) :=
  parseCsvFuel (s.toList.length + 1) s.toList

/-- Rectangular, non-degenerate frame: at least one column, and every row
has exactly one cell per column. -/
def WellFormed (df : DataFrame) : Prop :=
  df.cols ≠ [] ∧ ∀ r ∈ df.rows, r.length = df.cols.length

instance (df : DataFrame) : Decidable (WellFormed df) := by
  unfold WellFormed; infer_instance

/-! ### Basic lemmas about column lookup and deduplication -/

theorem idxOf_eq_none {l : List String} {c : String} (h : c ∉ l) :
    idxOf l c = none := by
  induction l with
  | nil => rfl
  | cons s rest ih =>
    have hs : ¬s = c := fun e => h (e ▸ List.mem_cons_self s rest)
    have hr : c ∉ rest := fun hm => h (List.mem_cons_of_mem _ hm)
    simp [idxOf, hs, ih hr]

theorem idxOf_mem {l : List String} {c : String} (h : c ∈ l) :
    ∃ i, idxOf l c = some i := by
  induction l with
  | nil => cases h
  | cons s rest ih =>
    by_cases hs : s = c
    · exact ⟨0, by simp [idxOf, hs]⟩
    · have hr : c ∈ rest := by
        cases h with
        | head => exact absurd rfl hs
        | tail _ hm => exact hm
      obtain ⟨i, hi⟩ := ih hr
      exact ⟨i + 1, by simp [idxOf, hs, hi]⟩

theorem mem_uniqueAux {α : Type} [DecidableEq α] (l : List α) :
    ∀ (seen : List α) (v : α), v ∈ uniqueAux l seen ↔ v ∈ l ∧ v ∉ seen := by
  induction l with
  | nil => intro seen v; simp [uniqueAux]
  | cons a vs ih =>
    intro seen v
    by_cases ha : a ∈ seen
    · rw [show uniqueAux (a :: vs) seen = uniqueAux vs seen from by
        simp [uniqueAux, ha]]
      rw [ih]
      constructor
      · rintro ⟨hv, hs⟩; exact ⟨List.mem_cons_of_mem _ hv, hs⟩
      · rintro ⟨hv, hs⟩
        cases hv with
        | head => exact absurd ha hs
        | tail _ hm => exact ⟨hm, hs⟩
    · rw [show uniqueAux (a :: vs) seen = a :: uniqueAux vs (a :: seen) from by
        simp [uniqueAux, ha]]
      by_cases hva : v = a
      · subst hva
        simp [List.mem_cons, ha]
      · simp only [List.mem_cons, hva, false_or]
        rw [ih]
        constructor
        · rintro ⟨hv, hs⟩
          exact ⟨hv, fun hm => hs (List.mem_cons_of_mem _ hm)⟩
        · rintro ⟨hv, hs⟩
          refine ⟨hv, fun hm => ?_⟩
          cases hm with
          | head => exact hva rfl
          | tail _ hm2 => exact hs hm2

theorem mem_uniqueFirst {α : Type} [DecidableEq α] {l : List α} {v : α} :
    v ∈ uniqueFirst l ↔ v ∈ l := by
  rw [uniqueFirst, mem_uniqueAux]
  simp

theorem nodup_uniqueAux {α : Type} [DecidableEq α] (l : List α) :
    ∀ seen : List α, (uniqueAux l seen).Nodup := by
  induction l with
  | nil => intro seen; simp [uniqueAux]
  | cons a vs ih =>
    intro seen
    by_cases ha : a ∈ seen
    · rw [show uniqueAux (a :: vs) seen = uniqueAux vs seen from by
        simp [uniqueAux, ha]]
      exact ih seen
    · rw [show uniqueAux (a :: vs) seen = a :: uniqueAux vs (a :: seen) from by
        simp [uniqueAux, ha]]
      refine List.Nodup.cons (fun hm => ?_) (ih (a :: seen))
      exact ((mem_uniqueAux vs (a :: seen) a).mp hm).2 (List.mem_cons_self _ _)

theorem nodup_uniqueFirst {α : Type} [DecidableEq α] (l : List α) :
    (uniqueFirst l).Nodup :=
  nodup_uniqueAux l []

/-! ### Lemmas about the filter stages -/

theorem catPred_true_iff {sel : List Value} {cell : Option Value} :
    catPred sel cell = true ↔ ∃ v, cell = some v ∧ v ∈ sel := by
  cases cell with
  | none => simp [catPred]
  | some v =>
    simp only [catPred, List.any_eq_true, decide_eq_true_eq, Option.some.injEq]
    aesop

theorem catStage_eq_some {df out : DataFrame} {c : String} {sel : List Value}
    (h : catStage df c sel = some out) :
    out.cols = df.cols ∧ out.rows.Sublist df.rows ∧
      ∀ r : Row, r ∈ out.rows ↔
        r ∈ df.rows ∧ (sel = [] ∨ catPred sel (cellAt df.cols c r) = true) := by
  cases sel with
  | nil =>
    have : df = out := Option.some.inj h
    subst this
    exact ⟨rfl, List.Sublist.refl _, fun r => by simp⟩
  | cons s ss =>
    rw [show catStage df c (s :: ss) = isinFilter df c (s :: ss) from rfl] at h
    unfold isinFilter at h
    cases hidx : idxOf df.cols c with
    | none => rw [hidx] at h; cases h
    | some i =>
      rw [hidx] at h
      have ho := Option.some.inj h
      subst ho
      refine ⟨rfl, List.filter_sublist _, fun r => ?_⟩
      have hcell : cellAt df.cols c r = r.getD i none := by
        simp [cellAt, hidx]
      rw [List.mem_filter, hcell]
      simp

theorem catStage_isSome {df : DataFrame} {c : String} {sel : List Value}
    (h : sel = [] ∨ c ∈ df.cols) :
    ∃ out, catStage df c sel = some out := by
  cases sel with
  | nil => exact ⟨df, rfl⟩
  | cons s ss =>
    cases h with
    | inl h0 => cases h0
    | inr hmem =>
      obtain ⟨i, hi⟩ := idxOf_mem hmem
      refine ⟨⟨df.cols, df.rows.filter fun r =>
        catPred (s :: ss) (r.getD i none)⟩, ?_⟩
      rw [show catStage df c (s :: ss) = isinFilter df c (s :: ss) from rfl]
      unfold isinFilter
      rw [hi]

theorem ageStage_eq_some {df out : DataFrame} {lo hi : Int}
    (h : ageStage df lo hi = some out) :
    out.cols = df.cols ∧ out.rows.Sublist df.rows ∧
      ∀ r : Row, r ∈ out.rows ↔
        r ∈ df.rows ∧ agePred lo hi (cellAt df.cols "Age" r) = true := by
  unfold ageStage at h
  cases hidx : idxOf df.cols "Age" with
  | none => rw [hidx] at h; cases h
  | some i =>
    rw [hidx] at h
    have ho := Option.some.inj h
    subst ho
    refine ⟨rfl, List.filter_sublist _, fun r => ?_⟩
    have hcell : cellAt df.cols "Age" r = r.getD i none := by
      simp [cellAt, hidx]
    rw [List.mem_filter, hcell]

theorem ageBounds_some_idx {df : DataFrame} {b : Int × Int}
    (h : ageBounds df = some b) : ∃ i, idxOf df.cols "Age" = some i := by
  unfold ageBounds at h
  cases hg : getCol df "Age" with
  | none => rw [hg] at h; cases h
  | some cells =>
    unfold getCol at hg
    cases hidx : idxOf df.cols "Age" with
    | none => rw [hidx] at hg; cases hg
    | some i => exact ⟨i, rfl⟩

theorem applyFilters_decomp {df out : DataFrame} {selD selG : List Value}
    {lo hi : Int} (h : applyFilters df selD selG lo hi = some out) :
    ∃ b d1 d2, ageBounds df = some b ∧
      catStage df "Department" selD = some d1 ∧
      catStage d1 "Gender" selG = some d2 ∧
      ageStage d2 lo hi = some out := by
  unfold applyFilters at h
  split at h
  · cases h
  · rename_i b hb
    split at h
    · cases h
    · rename_i d1 h1
      split at h
      · cases h
      · rename_i d2 h2
        exact ⟨b, d1, d2, hb, h1, h2, h⟩

/-! ### Claim C1: empty vs unset inclusion sets -/

/-- A one-row frame with a Department value, exhibiting the empty-selection
behaviour of the engine. -/
def dfConflate : DataFrame :=
  ⟨["Department", "Age"], [[some (Value.str "Sales"), some (Value.int 30)]]⟩

/-- C1 counterexample: an inclusion set explicitly provided empty does not
select "no rows" — `if selected_departments:` is false for the empty list,
the predicate is skipped, the single row passes, and the resulting view is
identical to the one produced by the default all-values selection, so the
empty and unset cases are conflated, contrary to the claim. -/
theorem c1_counterexample :
    applyFilters dfConflate [] [] 0 100 = some dfConflate ∧
    applyFilters dfConflate (defaultSel dfConflate "Department") [] 0 100 =
      applyFilters dfConflate [] [] 0 100 ∧
    dfConflate.rows.length = 1 := by
  decide

/-- C1 (amended): an inclusion set provided empty is conflated with the
unset default — for every frame and field, the categorical filter stage
with an empty selection is skipped entirely and returns the frame
unchanged, so all values pass, exactly as in the unset case. -/
theorem c1_empty_selection_is_skipped (df : DataFrame) (c : String) :
    catStage df c [] = some df := rfl

/-! ### Claim C2: datasets without an Age column -/

/-- C2: contrary to the claim, a dataset without the `Age` column makes the
filter engine fail instead of no-opping the age predicate: app.py line 40
evaluates `int(df['Age'].min())` before any filtering, which raises
`KeyError`, and line 49 would subscript the missing column again. -/
theorem c2_missing_age_fails (df : DataFrame) (selD selG : List Value)
    (lo hi : Int) (h : "Age" ∉ df.cols) :
    applyFilters df selD selG lo hi = none := by
  have hidx : idxOf df.cols "Age" = none := idxOf_eq_none h
  unfold applyFilters ageBounds getCol
  rw [hidx]
  rfl

/-- C2 witness: the failure at a concrete frame that has a Department
column but no Age column. -/
theorem c2_missing_age_fails_witness :
    applyFilters ⟨["Department"], [[some (Value.str "Sales")]]⟩ [] [] 0 100 =
      none :=
  c2_missing_age_fails _ [] [] 0 100 (by decide)

/-! ### Claim C3: soundness and completeness of the filter -/

/-- C3: a row is in the filtered view exactly when it is a row of the input
frame that satisfies every active predicate — membership in each non-empty
categorical inclusion set and the inclusive age range — and the view keeps
the input's columns. Both directions of the equivalence hold, so no row
outside the view satisfies all active predicates. -/
theorem c3_filter_sound_complete (df : DataFrame) (selD selG : List Value)
    (lo hi : Int) (out : DataFrame)
    (h : applyFilters df selD selG lo hi = some out) :
    out.cols = df.cols ∧
    ∀ r : Row, r ∈ out.rows ↔
      r ∈ df.rows ∧
      (selD = [] ∨ catPred selD (cellAt df.cols "Department" r) = true) ∧
      (selG = [] ∨ catPred selG (cellAt df.cols "Gender" r) = true) ∧
      agePred lo hi (cellAt df.cols "Age" r) = true := by
  obtain ⟨b, d1, d2, hb, h1, h2, h3⟩ := applyFilters_decomp h
  obtain ⟨hc1, _, hm1⟩ := catStage_eq_some h1
  obtain ⟨hc2, _, hm2⟩ := catStage_eq_some h2
  obtain ⟨hc3, _, hm3⟩ := ageStage_eq_some h3
  constructor
  · rw [hc3, hc2, hc1]
  · intro r
    rw [hm3 r, hc2, hc1, hm2 r, hc1, hm1 r]
    tauto

/-- Frame for the C3 witness: a matching row, a row failing the Department
predicate, and a null-Department row. -/
def dfSound : DataFrame :=
  ⟨["Department", "Age"],
   [[some (Value.str "Sales"), some (Value.int 30)],
    [some (Value.str "HR"), some (Value.int 50)],
    [none, some (Value.int 30)]]⟩

/-- Output frame for the C3 witness. -/
def outSound : DataFrame :=
  ⟨["Department", "Age"], [[some (Value.str "Sales"), some (Value.int 30)]]⟩

/-- C3 witness: the characterization instantiated at a concrete frame,
specification and row. -/
theorem c3_filter_sound_complete_witness :
    [some (Value.str "Sales"), some (Value.int 30)] ∈ outSound.rows ↔
      [some (Value.str "Sales"), some (Value.int 30)] ∈ dfSound.rows ∧
      (([Value.str "Sales"] : List Value) = [] ∨
        catPred [Value.str "Sales"]
          (cellAt dfSound.cols "Department"
            [some (Value.str "Sales"), some (Value.int 30)]) = true) ∧
      (([] : List Value) = [] ∨
        catPred []
          (cellAt dfSound.cols "Gender"
            [some (Value.str "Sales"), some (Value.int 30)]) = true) ∧
      agePred 25 35
        (cellAt dfSound.cols "Age"
          [some (Value.str "Sales"), some (Value.int 30)]) = true :=
  (c3_filter_sound_complete dfSound [Value.str "Sales"] [] 25 35 outSound
    (by decide)).2 [some (Value.str "Sales"), some (Value.int 30)]

/-! ### Claim C4: filtering on an absent categorical field -/

/-- C4: when a categorical field is entirely absent from the frame, the
selection built for it is empty (app.py lines 31-32 and 37-38), the
categorical filter stage is skipped as always-true without error, and the
view is the unchanged frame with the same row count. -/
theorem c4_absent_field_filter_noop (df : DataFrame) (c : String)
    (h : c ∉ df.cols) :
    defaultSel df c = [] ∧
    catStage df c (defaultSel df c) = some df ∧
    (catStage df c (defaultSel df c)).map (fun v => v.rows.length) =
      some df.rows.length := by
  have hidx : idxOf df.cols c = none := idxOf_eq_none h
  have hd : defaultSel df c = [] := by
    unfold defaultSel getCol
    rw [hidx]
    rfl
  refine ⟨hd, ?_, ?_⟩ <;> rw [hd] <;> rfl

/-- Frame for the C4 witness: no Department column. -/
def dfNoDept : DataFrame := ⟨["Age"], [[some (Value.int 41)]]⟩

/-- C4 witness: the no-op at a concrete frame lacking the Department
column. -/
theorem c4_absent_field_filter_noop_witness :
    defaultSel dfNoDept "Department" = [] ∧
    catStage dfNoDept "Department" (defaultSel dfNoDept "Department") =
      some dfNoDept ∧
    (catStage dfNoDept "Department"
        (defaultSel dfNoDept "Department")).map (fun v => v.rows.length) =
      some dfNoDept.rows.length :=
  c4_absent_field_filter_noop dfNoDept "Department" (by decide)

/-! ### Claim C9: determinism and order preservation -/

/-- Frame for the C9 scenario: ages 25, 30, 30, 40. -/
def dfAges : DataFrame :=
  ⟨["Age"], [[some (Value.int 25)], [some (Value.int 30)],
             [some (Value.int 30)], [some (Value.int 40)]]⟩

/-- C9: filtering preserves order — the view's rows are a sublist of the
input's rows (the relative order of the surviving rows is the input
order); and the inclusive range filter `[30, 30]` on ages
`[25, 30, 30, 40]` returns exactly the two age-30 rows, in order. -/
theorem c9_order_preserved :
    (∀ (df : DataFrame) (selD selG : List Value) (lo hi : Int)
        (out : DataFrame), applyFilters df selD selG lo hi = some out →
        out.rows.Sublist df.rows) ∧
    applyFilters dfAges [] [] 30 30 =
      some ⟨["Age"], [[some (Value.int 30)], [some (Value.int 30)]]⟩ := by
  constructor
  · intro df selD selG lo hi out h
    obtain ⟨b, d1, d2, hb, h1, h2, h3⟩ := applyFilters_decomp h
    exact (((ageStage_eq_some h3).2.1.trans
      (catStage_eq_some h2).2.1).trans (catStage_eq_some h1).2.1)
  · decide

/-- C9 witness: the order-preservation fact instantiated at the claim's
scenario. -/
theorem c9_order_preserved_witness :
    (⟨["Age"], [[some (Value.int 30)], [some (Value.int 30)]]⟩ :
      DataFrame).rows.Sublist dfAges.rows :=
  c9_order_preserved.1 dfAges [] [] 30 30 _ (by decide)

/-! ### Claim C10: null categorical cells under an active inclusion set -/

/-- C10: whenever a non-empty inclusion set is active for Department, every
row of the view has a non-null Department value that belongs to the set —
so rows with a null Department cell are excluded; and every member of the
default selection is one of the column's non-null values (nulls are
dropped by `dropna()` before the candidate set is formed). -/
theorem c10_null_cells_excluded :
    (∀ (df out : DataFrame) (sel : List Value) (r : Row), sel ≠ [] →
        catStage df "Department" sel = some out → r ∈ out.rows →
        ∃ v, cellAt df.cols "Department" r = some v ∧ v ∈ sel) ∧
    (∀ (df : DataFrame) (c : String) (v : Value), v ∈ defaultSel df c →
        ∃ cells, getCol df c = some cells ∧ some v ∈ cells) := by
  constructor
  · intro df out sel r hne h hr
    have hm := ((catStage_eq_some h).2.2 r).mp hr
    rcases hm.2 with h0 | hp
    · exact absurd h0 hne
    · exact catPred_true_iff.mp hp
  · intro df c v hv
    cases hg : getCol df c with
    | none =>
      rw [show defaultSel df c = [] from by unfold defaultSel; rw [hg]] at hv
      cases hv
    | some cells =>
      rw [show defaultSel df c = uniqueFirst cells.reduceOption from by
        unfold defaultSel; rw [hg]] at hv
      exact ⟨cells, rfl,
        List.reduceOption_mem_iff.mp (mem_uniqueFirst.mp hv)⟩

/-- Frame for the C10 witness: one Sales row and one null-Department
row. -/
def dfNulls : DataFrame :=
  ⟨["Department"], [[some (Value.str "Sales")], [none]]⟩

/-- View for the C10 witness: the null row is gone. -/
def outNulls : DataFrame := ⟨["Department"], [[some (Value.str "Sales")]]⟩

/-- C10 witness: under the default selection of the concrete frame, the
surviving row's Department value is non-null and selected. -/
theorem c10_null_cells_excluded_witness :
    ∃ v, cellAt dfNulls.cols "Department" [some (Value.str "Sales")] =
        some v ∧ v ∈ defaultSel dfNulls "Department" :=
  c10_null_cells_excluded.1 dfNulls outNulls
    (defaultSel dfNulls "Department") [some (Value.str "Sales")]
    (by decide) (by decide) (by decide)

/-! ### Claim C8: empty views are valid, aggregations degrade -/

/-- C8: producing an empty view never fails — whenever the age bounds of
line 40 are computable and each non-empty selection refers to a present
column, the pipeline returns a view (whatever the range and selections,
including ones excluding every row); and the crosstab of a zero-row view
is the empty mapping rather than a failure. -/
theorem c8_empty_view_ok :
    (∀ (df : DataFrame) (b : Int × Int) (selD selG : List Value)
        (lo hi : Int), ageBounds df = some b →
        (selD = [] ∨ "Department" ∈ df.cols) →
        (selG = [] ∨ "Gender" ∈ df.cols) →
        ∃ out, applyFilters df selD selG lo hi = some out) ∧
    crossTabRate [] = [] ∧
    (∀ (out : DataFrame) (c1 c2 : String) (ps : List (Value × Value)),
        out.rows = [] → pairedCol out c1 c2 = some ps →
        crossTabRate ps = []) := by
  refine ⟨?_, rfl, ?_⟩
  · intro df b selD selG lo hi hb hd hg
    obtain ⟨d1, h1⟩ := catStage_isSome hd
    have hc1 := (catStage_eq_some h1).1
    have hg1 : selG = [] ∨ "Gender" ∈ d1.cols := by rw [hc1]; exact hg
    obtain ⟨d2, h2⟩ := catStage_isSome hg1
    have hc2 := (catStage_eq_some h2).1
    obtain ⟨i, hiA⟩ := ageBounds_some_idx hb
    have hi2 : idxOf d2.cols "Age" = some i := by rw [hc2, hc1]; exact hiA
    refine ⟨⟨d2.cols, d2.rows.filter fun r =>
      agePred lo hi (r.getD i none)⟩, ?_⟩
    simp only [applyFilters, hb, h1, h2]
    unfold ageStage
    rw [hi2]
  · intro out c1 c2 ps hrows hp
    unfold pairedCol at hp
    split at hp
    · rw [hrows] at hp
      simp only [List.filterMap_nil, Option.some.injEq] at hp
      rw [← hp]
      rfl
    · cases hp

/-- Frame for the C8 witness: one row of age 30. -/
def dfOneAge : DataFrame := ⟨["Age"], [[some (Value.int 30)]]⟩

/-- C8 witness: the empty range `[100, 0]` excludes every row yet the
pipeline still returns a view. -/
theorem c8_empty_view_ok_witness :
    ∃ out, applyFilters dfOneAge [] [] 100 0 = some out :=
  c8_empty_view_ok.1 dfOneAge (30, 30) [] [] 100 0 (by decide)
    (Or.inl rfl) (Or.inl rfl)

/-! ### Claim C5: the crosstab is row-normalized -/

theorem sum_filter_lengths {α β : Type} [DecidableEq β] (key : α → β) :
    ∀ (ks : List β) (l : List α), ks.Nodup → (∀ x ∈ l, key x ∈ ks) →
      (ks.map fun k => (l.filter fun x => decide (key x = k)).length).sum =
        l.length := by
  intro ks
  induction ks with
  | nil =>
    intro l _ hall
    have hl : l = [] := by
      cases l with
      | nil => rfl
      | cons x t => exact absurd (hall x (List.mem_cons_self x t)) (by simp)
    simp [hl]
  | cons k ks ih =>
    intro l hnd hall
    have hknotin : k ∉ ks := (List.nodup_cons.mp hnd).1
    have hndk : ks.Nodup := (List.nodup_cons.mp hnd).2
    have hsplit :=
      List.length_eq_length_filter_add (l := l) fun x => decide (key x = k)
    have hrest : ∀ k2 ∈ ks,
        (l.filter fun x => decide (key x = k2)).length =
        ((l.filter fun x => !decide (key x = k)).filter
          fun x => decide (key x = k2)).length := by
      intro k2 hk2
      rw [List.filter_filter]
      congr 1
      apply List.filter_congr
      intro x _
      have hne2 : ¬k2 = k := fun e => hknotin (e ▸ hk2)
      by_cases hxk : key x = k2
      · simp [hxk, hne2]
      · simp [hxk]
    rw [List.map_cons, List.sum_cons]
    rw [List.map_congr_left hrest]
    rw [ih (l.filter fun x => !decide (key x = k)) hndk ?_]
    · exact hsplit.symm
    · intro x hx
      have hxl := (List.mem_filter.mp hx).1
      have hxk : ¬key x = k := by
        have := (List.mem_filter.mp hx).2
        simpa using this
      have := hall x hxl
      cases this with
      | head => exact absurd rfl hxk
      | tail _ hm => exact hm

theorem sum_map_mul_div {α : Type} (l : List α) (f : α → ℚ) (k n : ℚ) :
    (l.map fun a => k * f a / n).sum = k * (l.map f).sum / n := by
  induction l with
  | nil => simp
  | cons a t ih =>
    simp only [List.map_cons, List.sum_cons, ih]
    ring

/-- Pairs of the claim's five-row scenario, as produced by `pairedCol` on
the `{Department, Attrition}` frame. -/
def scenPairs : List (Value × Value) :=
  [(Value.str "Sales", Value.str "Yes"), (Value.str "Sales", Value.str "No"),
   (Value.str "HR", Value.str "Yes"), (Value.str "HR", Value.str "No"),
   (Value.str "IT", Value.str "No")]

/-- Expected crosstab of the scenario. -/
def scenTable : List (Value × List (Value × ℚ)) :=
  [(Value.str "Sales", [(Value.str "Yes", 50), (Value.str "No", 50)]),
   (Value.str "HR", [(Value.str "Yes", 50), (Value.str "No", 50)]),
   (Value.str "IT", [(Value.str "Yes", 0), (Value.str "No", 100)])]

/-- C5: every category emitted by the crosstab has at least one row (a
zero-row category is never emitted), its percentages sum to exactly 100,
and on the claim's five-row scenario the crosstab is
`Sales ↦ {Yes 50, No 50}, HR ↦ {Yes 50, No 50}, IT ↦ {Yes 0, No 100}`. -/
theorem c5_crosstab_row_normalized :
    (∀ (pairs : List (Value × Value)) (c : Value) (ps : List (Value × ℚ)),
        (c, ps) ∈ crossTabRate pairs →
        0 < (pairs.filter fun p => decide (p.1 = c)).length ∧
        (ps.map Prod.snd).sum = 100) ∧
    crossTabRate scenPairs = scenTable := by
  constructor
  · intro pairs c ps hmem
    simp only [crossTabRate] at hmem
    rw [List.mem_map] at hmem
    obtain ⟨c0, hc0, heq⟩ := hmem
    injection heq with h1 h2
    subst h1
    subst h2
    have hcmem : c0 ∈ pairs.map Prod.fst := mem_uniqueFirst.mp hc0
    obtain ⟨p0, hp0, hp0c⟩ := List.mem_map.mp hcmem
    have hpos :
        0 < (pairs.filter fun p => decide (p.1 = c0)).length := by
      apply List.length_pos_of_mem (a := p0)
      rw [List.mem_filter]
      exact ⟨hp0, by simp [hp0c]⟩
    refine ⟨hpos, ?_⟩
    rw [List.map_map]
    have hcomp :
        (Prod.snd ∘ fun a =>
          (a, 100 * (((pairs.filter fun p => decide (p.1 = c0)).filter
              fun p => decide (p.2 = a)).length : ℚ) /
            (((pairs.filter fun p => decide (p.1 = c0)).length : ℚ)))) =
        fun a =>
          100 * (((pairs.filter fun p => decide (p.1 = c0)).filter
              fun p => decide (p.2 = a)).length : ℚ) /
            (((pairs.filter fun p => decide (p.1 = c0)).length : ℚ)) := rfl
    rw [hcomp, sum_map_mul_div]
    have hcast :
        ((uniqueFirst (pairs.map Prod.snd)).map fun a =>
          (((pairs.filter fun p => decide (p.1 = c0)).filter
            fun p => decide (p.2 = a)).length : ℚ)).sum =
        (((uniqueFirst (pairs.map Prod.snd)).map fun a =>
          ((pairs.filter fun p => decide (p.1 = c0)).filter
            fun p => decide (p.2 = a)).length).sum : ℚ) := by
      rw [Nat.cast_list_sum, List.map_map]
      rfl
    rw [hcast]
    have hcount :
        ((uniqueFirst (pairs.map Prod.snd)).map fun a =>
          ((pairs.filter fun p => decide (p.1 = c0)).filter
            fun p => decide (p.2 = a)).length).sum =
        (pairs.filter fun p => decide (p.1 = c0)).length := by
      apply sum_filter_lengths Prod.snd
      · exact nodup_uniqueFirst _
      · intro x hx
        apply mem_uniqueFirst.mpr
        exact List.mem_map_of_mem Prod.snd (List.mem_filter.mp hx).1
    rw [hcount]
    have hn : ((pairs.filter fun p => decide (p.1 = c0)).length : ℚ) ≠ 0 :=
      Nat.cast_ne_zero.mpr (Nat.pos_iff_ne_zero.mp hpos)
    rw [mul_div_assoc, div_self hn, mul_one]
  · rw [show scenPairs = [(Value.str "Sales", Value.str "Yes"),
      (Value.str "Sales", Value.str "No"),
      (Value.str "HR", Value.str "Yes"), (Value.str "HR", Value.str "No"),
      (Value.str "IT", Value.str "No")] from rfl]
    rw [show scenTable = [(Value.str "Sales",
        [(Value.str "Yes", (50 : ℚ)), (Value.str "No", 50)]),
      (Value.str "HR", [(Value.str "Yes", 50), (Value.str "No", 50)]),
      (Value.str "IT", [(Value.str "Yes", 0), (Value.str "No", 100)])]
      from rfl]
    simp [crossTabRate, uniqueFirst, uniqueAux]
    norm_num

/-- C5 witness: the row-normalization facts at the scenario's first
category. -/
theorem c5_crosstab_row_normalized_witness :
    0 < (scenPairs.filter fun p => decide (p.1 = Value.str "Sales")).length ∧
    (([(Value.str "Yes", (50 : ℚ)), (Value.str "No", 50)].map
      Prod.snd).sum = 100) :=
  c5_crosstab_row_normalized.1 scenPairs (Value.str "Sales")
    [(Value.str "Yes", 50), (Value.str "No", 50)]
    (by rw [c5_crosstab_row_normalized.2]
        simp [scenTable])

/-! ### Claim C6: the correlation matrix -/

theorem qvar_nonneg (xs : List ℚ) : 0 ≤ qvar xs := by
  apply List.sum_nonneg
  intro x hx
  obtain ⟨y, _, rfl⟩ := List.mem_map.mp hx
  exact mul_self_nonneg _

theorem comp_swap_fst : (Prod.fst ∘ Prod.swap : ℚ × ℚ → ℚ) = Prod.snd := rfl

theorem comp_swap_snd : (Prod.snd ∘ Prod.swap : ℚ × ℚ → ℚ) = Prod.fst := rfl

theorem qcov_swap (ps : List (ℚ × ℚ)) : qcov (ps.map Prod.swap) = qcov ps := by
  unfold qcov
  simp only [List.map_map, comp_swap_fst, comp_swap_snd]
  congr 1
  apply List.map_congr_left
  intro p _
  simp only [Function.comp_apply, Prod.fst_swap, Prod.snd_swap]
  ring

theorem pearson_swap (ps : List (ℚ × ℚ)) :
    pearson (ps.map Prod.swap) = pearson ps := by
  unfold pearson
  rw [qcov_swap]
  simp only [List.map_map, comp_swap_fst, comp_swap_snd]
  rw [mul_comm (qvar (ps.map Prod.snd)) (qvar (ps.map Prod.fst))]

theorem intCellsPair_swap (df : DataFrame) (c1 c2 : String) :
    intCellsPair df c2 c1 = (intCellsPair df c1 c2).map Prod.swap := by
  unfold intCellsPair
  rw [List.map_filterMap]
  apply List.filterMap_congr
  intro r _
  cases cellAt df.cols c1 r with
  | none =>
    cases cellAt df.cols c2 r with
    | none => rfl
    | some v2 => cases v2 <;> rfl
  | some v1 =>
    cases cellAt df.cols c2 r with
    | none => cases v1 <;> rfl
    | some v2 => cases v1 <;> cases v2 <;> rfl

/-- The non-null numeric readings of one column (what the diagonal of the
correlation matrix sees twice). -/
def numColRats (df : DataFrame) (c : String) : List ℚ :=
  df.rows.filterMap fun r =>
    match cellAt df.cols c r with
    | some (Value.int m) => some (m : ℚ)
    | _ => none

theorem intCellsPair_diag (df : DataFrame) (c : String) :
    intCellsPair df c c = (numColRats df c).map fun q => (q, q) := by
  unfold intCellsPair numColRats
  rw [List.map_filterMap]
  apply List.filterMap_congr
  intro r _
  cases cellAt df.cols c r with
  | none => rfl
  | some v => cases v <;> rfl

theorem map_dup_fst (xs : List ℚ) :
    (xs.map fun q => (q, q)).map Prod.fst = xs := by
  rw [List.map_map]
  exact List.map_id xs

theorem map_dup_snd (xs : List ℚ) :
    (xs.map fun q => (q, q)).map Prod.snd = xs := by
  rw [List.map_map]
  exact List.map_id xs

theorem pearson_diag (xs : List ℚ) (h : qvar xs ≠ 0) :
    pearson (xs.map fun q => (q, q)) = 1 := by
  unfold pearson
  rw [map_dup_fst, map_dup_snd]
  have hqcov : qcov (xs.map fun q => (q, q)) = qvar xs := by
    unfold qcov qvar
    rw [map_dup_fst, map_dup_snd, List.map_map]
    rfl
  rw [hqcov]
  have hcast : (((qvar xs * qvar xs : ℚ)) : ℝ) =
      ((qvar xs : ℚ) : ℝ) * ((qvar xs : ℚ) : ℝ) := by push_cast; ring
  rw [hcast]
  have hnn : (0 : ℝ) ≤ ((qvar xs : ℚ) : ℝ) := by
    exact_mod_cast qvar_nonneg xs
  rw [Real.sqrt_mul_self hnn]
  apply div_self
  exact_mod_cast h

/-- C6: the correlation matrix is produced exactly when more than one
numeric column is present (otherwise an explicit "not applicable" `none`),
its entries are symmetric in the two columns, and every diagonal entry of
a column with nonzero variance equals 1. -/
theorem c6_corr_matrix :
    (∀ df : DataFrame,
        (corrMatrix df).isSome ↔ 1 < (numericCols df).length) ∧
    (∀ (df : DataFrame) (c1 c2 : String),
        corrEntry df c1 c2 = corrEntry df c2 c1) ∧
    (∀ (df : DataFrame) (c : String),
        qvar ((intCellsPair df c c).map Prod.fst) ≠ 0 →
        corrEntry df c c = 1) := by
  refine ⟨?_, ?_, ?_⟩
  · intro df
    unfold corrMatrix
    by_cases h : 1 < (numericCols df).length <;> simp [h]
  · intro df c1 c2
    unfold corrEntry
    rw [intCellsPair_swap df c1 c2, pearson_swap]
  · intro df c h
    rw [intCellsPair_diag, map_dup_fst] at h
    unfold corrEntry
    rw [intCellsPair_diag]
    exact pearson_diag _ h

/-- Frame for the C6 witness: two numeric columns, two rows. -/
def dfCorr : DataFrame :=
  ⟨["Age", "Income"],
   [[some (Value.int 30), some (Value.int 100)],
    [some (Value.int 40), some (Value.int 200)]]⟩

/-- C6 witness: the diagonal entry of the Age column of a concrete frame
with nonzero variance is 1. -/
theorem c6_corr_matrix_witness : corrEntry dfCorr "Age" "Age" = 1 :=
  c6_corr_matrix.2.2 dfCorr "Age" (by
    have hicp : (intCellsPair dfCorr "Age" "Age").map Prod.fst =
        [(30 : ℚ), 40] := by
      norm_num [intCellsPair, cellAt, idxOf, dfCorr, List.filterMap_cons,
        List.getD]
    rw [hicp]
    norm_num [qvar, qmean])

/-! ### Claim C7: export/load round trip -/

theorem toList_mk (l : List Char) : (String.mk l).toList = l := rfl

theorem mk_toList (s : String) : String.mk s.toList = s := by
  cases s
  rfl

theorem parseQ_qq (t : List Char) :
    parseQ ('"' :: '"' :: t) = (parseQ t).map fun p => ('"' :: p.1, p.2) := by
  simp [parseQ]

theorem parseQ_close (c2 : Char) (t : List Char) (h : ¬c2 = '"') :
    parseQ ('"' :: c2 :: t) = some ([], c2 :: t) := by
  simp [parseQ, h]

theorem parseQ_other (ch : Char) (t : List Char) (h : ¬ch = '"') :
    parseQ (ch :: t) = (parseQ t).map fun p => (ch :: p.1, p.2) := by
  cases t with
  | nil => simp [parseQ, h]
  | cons c2 r => simp [parseQ, h]

theorem parseQ_esc (f : List Char) :
    ∀ rest : List Char, rest.head? ≠ some '"' →
      parseQ (escChars f ++ '"' :: rest) = some (f, rest) := by
  induction f with
  | nil =>
    intro rest hrest
    cases rest with
    | nil => rfl
    | cons c r =>
      have hc : ¬c = '"' := fun e => hrest (by rw [e]; rfl)
      rw [show escChars [] ++ '"' :: c :: r = '"' :: c :: r from rfl]
      exact parseQ_close c r hc
  | cons ch f ih =>
    intro rest hrest
    by_cases hch : ch = '"'
    · subst hch
      rw [show escChars ('"' :: f) ++ '"' :: rest =
          '"' :: '"' :: (escChars f ++ '"' :: rest) from by simp [escChars]]
      rw [parseQ_qq, ih rest hrest]
      rfl
    · rw [show escChars (ch :: f) ++ '"' :: rest =
          ch :: (escChars f ++ '"' :: rest) from by simp [escChars, hch]]
      rw [parseQ_other ch _ hch, ih rest hrest]
      rfl

theorem parseU_clean (f : List Char) :
    ∀ rest : List Char, (∀ ch ∈ f, ¬ch = ',' ∧ ¬ch = '\n') →
      (rest = [] ∨ rest.head? = some ',' ∨ rest.head? = some '\n') →
      parseU (f ++ rest) = (f, rest) := by
  induction f with
  | nil =>
    intro rest _ hrest
    rcases hrest with rfl | h | h
    · rfl
    · cases rest with
      | nil => cases h
      | cons c r =>
        have hc : c = ',' := by simpa using Option.some.inj h
        simp [parseU, hc]
    · cases rest with
      | nil => cases h
      | cons c r =>
        have hc : c = '\n' := by simpa using Option.some.inj h
        simp [parseU, hc]
  | cons ch f ih =>
    intro rest hf hrest
    have hch := hf ch (List.mem_cons_self ch f)
    rw [List.cons_append]
    simp only [parseU]
    rw [ih rest (fun c hc => hf c (List.mem_cons_of_mem _ hc)) hrest]
    simp [hch.1, hch.2]

theorem parseField_quote (t : List Char) :
    parseField ('"' :: t) = parseQ t := by
  simp [parseField]

theorem parseField_other (ch : Char) (t : List Char) (h : ¬ch = '"') :
    parseField (ch :: t) = some (parseU (ch :: t)) := by
  simp [parseField, h]

theorem parseField_enc (f : String) (rest : List Char)
    (hrest : rest = [] ∨ rest.head? = some ',' ∨ rest.head? = some '\n') :
    parseField (encodeField f ++ rest) = some (f.toList, rest) := by
  by_cases hq : needsQuote f = true
  · rw [show encodeField f = '"' :: (escChars f.toList ++ ['"']) from by
      simp [encodeField, hq]]
    rw [List.cons_append, List.append_assoc, List.singleton_append,
      parseField_quote]
    apply parseQ_esc
    rcases hrest with rfl | h | h
    · simp
    · rw [h]; simp
    · rw [h]; simp
  · rw [show encodeField f = f.toList from by simp [encodeField, hq]]
    have hnosp : ∀ ch ∈ f.toList, ¬ch = ',' ∧ ¬ch = '"' ∧ ¬ch = '\n' := by
      intro ch hch
      by_contra hcon
      apply hq
      simp only [needsQuote, List.any_eq_true, Bool.or_eq_true, beq_iff_eq]
      refine ⟨ch, hch, ?_⟩
      tauto
    cases hfl : f.toList with
    | nil =>
      rcases hrest with rfl | h | h
      · rfl
      · cases rest with
        | nil => cases h
        | cons c r =>
          have hc : c = ',' := by simpa using Option.some.inj h
          simp [parseField, parseU, hc]
      · cases rest with
        | nil => cases h
        | cons c r =>
          have hc : c = '\n' := by simpa using Option.some.inj h
          simp [parseField, parseU, hc]
    | cons c0 t0 =>
      have h0 := hnosp c0 (by rw [hfl]; exact List.mem_cons_self _ _)
      rw [List.cons_append, parseField_other c0 _ h0.2.1, ← List.cons_append]
      rw [parseU_clean (c0 :: t0) rest ?_ hrest]
      intro ch hch
      have := hnosp ch (by rw [hfl]; exact hch)
      tauto

theorem parseRecFuel_enc (fields : List String) :
    ∀ (fuel : Nat) (rest : List Char), fields ≠ [] →
      fields.length ≤ fuel →
      parseRecFuel fuel (encRecord fields ++ '\n' :: rest) =
        some (fields, rest) := by
  induction fields with
  | nil => intro fuel rest h; exact absurd rfl h
  | cons f fs ih =>
    intro fuel rest _ hlen
    cases fuel with
    | zero => simp at hlen
    | succ fuel =>
      cases fs with
      | nil =>
        rw [show encRecord [f] = encodeField f from rfl]
        simp only [parseRecFuel]
        rw [parseField_enc f ('\n' :: rest) (Or.inr (Or.inr rfl))]
        simp [mk_toList]
      | cons g gs =>
        rw [show encRecord (f :: g :: gs) =
            encodeField f ++ ',' :: encRecord (g :: gs) from rfl]
        rw [List.append_assoc, List.cons_append]
        simp only [parseRecFuel]
        rw [parseField_enc f (',' :: (encRecord (g :: gs) ++ '\n' :: rest))
          (Or.inr (Or.inl rfl))]
        have hfs : (g :: gs : List String) ≠ [] := by simp
        have hlen2 : (g :: gs : List String).length ≤ fuel := by
          simp only [List.length_cons] at hlen ⊢
          omega
        show (match parseRecFuel fuel (encRecord (g :: gs) ++ '\n' :: rest)
            with
          | none => none
          | some (fs, r2) => some (String.mk f.toList :: fs, r2)) =
          some (f :: g :: gs, rest)
        rw [ih fuel rest hfs hlen2]
        simp [mk_toList]

theorem encRecord_length (fields : List String) :
    fields.length ≤ (encRecord fields).length + 1 := by
  induction fields with
  | nil => simp [encRecord]
  | cons f fs ih =>
    cases fs with
    | nil => simp [encRecord]
    | cons g gs =>
      rw [show encRecord (f :: g :: gs) =
          encodeField f ++ ',' :: encRecord (g :: gs) from rfl]
      simp only [List.length_append, List.length_cons] at ih ⊢
      omega

theorem renderCsv_length (recs : List (List String)) :
    recs.length ≤ (renderCsv recs).length := by
  induction recs with
  | nil => simp [renderCsv]
  | cons r rest ih =>
    rw [show renderCsv (r :: rest) = encRecord r ++ '\n' :: renderCsv rest
      from rfl]
    simp only [List.length_append, List.length_cons] at ih ⊢
    omega

theorem parseCsvFuel_cons (fuel : Nat) (ch : Char) (s : List Char) :
    parseCsvFuel (fuel + 1) (ch :: s) =
      match parseRecFuel (s.length + 2) (ch :: s) with
      | none => none
      | some (fs, rest) =>
        match parseCsvFuel fuel rest with
        | none => none
        | some recs => some (fs :: recs) := rfl

theorem parseCsvFuel_render (recs : List (List String)) :
    ∀ fuel : Nat, (∀ r ∈ recs, r ≠ []) → recs.length < fuel →
      parseCsvFuel fuel (renderCsv recs) = some recs := by
  induction recs with
  | nil =>
    intro fuel _ hf
    cases fuel with
    | zero => omega
    | succ fuel => rfl
  | cons rec recs ih =>
    intro fuel hne hf
    cases fuel with
    | zero => omega
    | succ fuel =>
      rw [show renderCsv (rec :: recs) =
          encRecord rec ++ '\n' :: renderCsv recs from rfl]
      cases hE : encRecord rec ++ '\n' :: renderCsv recs with
      | nil => exact absurd hE (by simp)
      | cons c s =>
        rw [parseCsvFuel_cons, ← hE]
        have hlen : rec.length ≤ s.length + 2 := by
          have hlE := congrArg List.length hE
          simp only [List.length_append, List.length_cons] at hlE
          have := encRecord_length rec
          omega
        rw [parseRecFuel_enc rec (s.length + 2) (renderCsv recs)
          (hne rec (List.mem_cons_self _ _)) hlen]
        show (match parseCsvFuel fuel (renderCsv recs) with
          | none => none
          | some recs2 => some (rec :: recs2)) = some (rec :: recs)
        rw [ih fuel (fun r hr => hne r (List.mem_cons_of_mem _ hr))
          (by simp only [List.length_cons] at hf; omega)]

/-- C7: re-loading the serialized CSV buffer reproduces the view's textual
content exactly — the header record is the view's column list in order,
and below it one record per row holding each cell's rendered value, with
delimiter, quote and line-break characters escaped and unescaped
correctly. -/
theorem c7_export_roundtrip (df : DataFrame) (h : WellFormed df) :
    parseCsv (toCsv df) =
      some (df.cols :: df.rows.map fun r => r.map cellStr) := by
  obtain ⟨hcols, hrows⟩ := h
  unfold toCsv parseCsv
  rw [toList_mk]
  apply parseCsvFuel_render
  · intro r hr
    cases hr with
    | head => exact hcols
    | tail _ hm =>
      obtain ⟨r0, hr0, rfl⟩ := List.mem_map.mp hm
      intro he
      have h0 := hrows r0 hr0
      rw [List.map_eq_nil_iff.mp he] at h0
      rw [show (([] : Row)).length = 0 from rfl] at h0
      exact hcols (List.length_eq_zero.mp h0.symm)
  · have := renderCsv_length (df.cols :: df.rows.map fun r => r.map cellStr)
    omega

/-- Frame for the C7 witness: values containing the delimiter, quote
characters and a line break, plus an integer and a null cell. -/
def dfCsv : DataFrame :=
  ⟨["Name", "Note"],
   [[some (Value.str "a,b"), some (Value.str "say \"hi\"\nok")],
    [some (Value.int 5), none]]⟩

/-- C7 witness: the round trip at the concrete frame with embedded
delimiter, quotes and line break. -/
theorem c7_export_roundtrip_witness :
    parseCsv (toCsv dfCsv) =
      some [["Name", "Note"], ["a,b", "say \"hi\"\nok"], ["5", ""]] := by
  have h := c7_export_roundtrip dfCsv (by decide)
  rw [h]
  rfl

end EAApp
